import Mathlib

/-!
# datree: `pkg/jsonSchemaValidator/validator.go`

A shallow embedding of the schema-validation kernel: the error reducer
`getErrors`, the document normalizer `toStringKeys`, the compile hooks of the
two custom keywords and their validators.

Go values of type `interface{}` are embedded as inductive types that carry
the dynamic type; a Go panic is the `Except.error` branch of a result.
-/

namespace JsonSchemaValidator

/-! ## Error reducer -/

/-- The record `jsonschema.Detailed` of the schema library: a node of the
detailed validation output, with its child records in `Errors`. -/
inductive Detailed where
  | mk (Valid : Bool) (KeywordLocation : String) (AbsoluteKeywordLocation : String)
      (InstanceLocation : String) (Error : String) (Errors : List Detailed)

/-- Field `Errors` of a `Detailed` record. -/
def Detailed.Errors : Detailed → List Detailed
  | .mk _ _ _ _ _ errs => errs

mutual
/-- `getErrors` (validator.go, lines 210-223). A non-empty slice enters the
`for` loop, whose body returns on its first iteration. -/
def getErrors (errorsRes : List Detailed) : List Detailed :=
  match errorsRes with
  | [] => errorsRes
  | err :: _ => getErrors.loopBody err errorsRes
/-- Body of the `for _, err := range errorsRes` loop of `getErrors`. -/
def getErrors.loopBody (err : Detailed) (errorsRes : List Detailed) : List Detailed :=
  match err with
  | .mk _ _ _ _ _ errs => if 0 < errs.length then getErrors errs else errorsRes
end

/-- A record without children, used in the examples below. -/
def leafError (keyword : String) : Detailed :=
  .mk false keyword keyword "" keyword []

/-! ## Document normalizer -/

/-- A Go value of a comparable scalar type: what a decoder yields at the
leaves of a document and as the keys of a `map[interface{}]interface{}`. -/
inductive Scalar where
  | string (s : String)
  | int (n : Int)
  | float64 (bits : Nat)
  | bool (b : Bool)
  | null
  deriving DecidableEq

/-- A Go value of type `interface{}` as `toStringKeys` sees it:
`map[interface{}]interface{}`, `[]interface{}`, and everything else. A map is
an association list; in a Go map every key occurs once. -/
inductive Value where
  | scalar (s : Scalar)
  | mapIface (entries : List (Scalar × Value))
  | mapString (entries : List (String × Value))
  | slice (elems : List Value)

/-- The assignment `m[k] = v` on a `map[string]interface{}`. -/
def mapAssign (m : List (String × Value)) (k : String) (v : Value) : List (String × Value) :=
  match m with
  | [] => [(k, v)]
  | (k', v') :: rest => if k' = k then (k, v) :: rest else (k', v') :: mapAssign rest k v

mutual
/-- `toStringKeys` (validator.go, lines 102-130). -/
def toStringKeys (val : Value) : Except String Value :=
  match val with
  | .mapIface entries =>
    match toStringKeys.rangeMap entries [] with
    | .error err => .error err
    | .ok m => .ok (.mapString m)
  | .slice elems =>
    match toStringKeys.rangeSlice elems with
    | .error err => .error err
    | .ok l => .ok (.slice l)
  | .scalar s => .ok (.scalar s)
  | .mapString entries => .ok (.mapString entries)
/-- The loop `for k, v := range val` of the map case, `m` being the map built
so far. Go visits the entries in an unspecified order; the order of the list
stands for the order of one run. -/
def toStringKeys.rangeMap (entries : List (Scalar × Value)) (m : List (String × Value)) :
    Except String (List (String × Value)) :=
  match entries with
  | [] => .ok m
  | (.string k, v) :: rest =>
    match toStringKeys v with
    | .error err => .error err
    | .ok v' => toStringKeys.rangeMap rest (mapAssign m k v')
  | (_, _) :: _ => .error "found non-string key"
/-- The loop `for i, v := range val` of the slice case. -/
def toStringKeys.rangeSlice (elems : List Value) : Except String (List Value) :=
  match elems with
  | [] => .ok []
  | v :: rest =>
    match toStringKeys v with
    | .error err => .error err
    | .ok v' =>
      match toStringKeys.rangeSlice rest with
      | .error err => .error err
      | .ok l => .ok (v' :: l)
end

/-- Whether a key is a Go `string`. -/
def Scalar.isString : Scalar → Bool
  | .string _ => true
  | _ => false

mutual
/-- A decoded document tree: scalars, arbitrary-keyed mappings and sequences,
nested to any depth. -/
def Value.Decoded : Value → Prop
  | .scalar _ => True
  | .mapIface entries => Value.DecodedEntries entries
  | .mapString _ => False
  | .slice elems => Value.DecodedElems elems
/-- Every value of the mapping is a decoded document tree. -/
def Value.DecodedEntries : List (Scalar × Value) → Prop
  | [] => True
  | (_, v) :: rest => Value.Decoded v ∧ Value.DecodedEntries rest
/-- Every element of the sequence is a decoded document tree. -/
def Value.DecodedElems : List Value → Prop
  | [] => True
  | v :: rest => Value.Decoded v ∧ Value.DecodedElems rest
end

mutual
/-- Some mapping anywhere in the tree has a key that is not a string. -/
def Value.HasNonStringKey : Value → Prop
  | .scalar _ => False
  | .mapIface entries => Value.HasNonStringKeyEntries entries
  | .mapString entries => Value.HasNonStringKeyFields entries
  | .slice elems => Value.HasNonStringKeyElems elems
/-- A key of this mapping is not a string, or a value of it holds a mapping
with such a key. -/
def Value.HasNonStringKeyEntries : List (Scalar × Value) → Prop
  | [] => False
  | (k, v) :: rest =>
    k.isString = false ∨ Value.HasNonStringKey v ∨ Value.HasNonStringKeyEntries rest
/-- A value of this string-keyed mapping holds a mapping with a non-string key. -/
def Value.HasNonStringKeyFields : List (String × Value) → Prop
  | [] => False
  | (_, v) :: rest => Value.HasNonStringKey v ∨ Value.HasNonStringKeyFields rest
/-- An element of the sequence holds a mapping with a non-string key. -/
def Value.HasNonStringKeyElems : List Value → Prop
  | [] => False
  | v :: rest => Value.HasNonStringKey v ∨ Value.HasNonStringKeyElems rest
end

mutual
/-- Every map in the tree is a Go map: no key occurs twice in it. -/
def Value.KeysDistinct : Value → Prop
  | .scalar _ => True
  | .mapIface entries => (entries.map Prod.fst).Nodup ∧ Value.KeysDistinctEntries entries
  | .mapString entries => (entries.map Prod.fst).Nodup ∧ Value.KeysDistinctFields entries
  | .slice elems => Value.KeysDistinctElems elems
/-- Every value of the mapping has distinct keys throughout. -/
def Value.KeysDistinctEntries : List (Scalar × Value) → Prop
  | [] => True
  | (_, v) :: rest => Value.KeysDistinct v ∧ Value.KeysDistinctEntries rest
/-- Every value of the string-keyed mapping has distinct keys throughout. -/
def Value.KeysDistinctFields : List (String × Value) → Prop
  | [] => True
  | (_, v) :: rest => Value.KeysDistinct v ∧ Value.KeysDistinctFields rest
/-- Every element of the sequence has distinct keys throughout. -/
def Value.KeysDistinctElems : List Value → Prop
  | [] => True
  | v :: rest => Value.KeysDistinct v ∧ Value.KeysDistinctElems rest
end

mutual
/-- The relation "`r` has the same structure as `d`, keys now typed as
strings": a scalar is unchanged, a sequence has the same length with its
elements related in order, a mapping has the same keys bound to related
values. -/
def SameStructure : Value → Value → Prop
  | .scalar s, .scalar s' => s = s'
  | .slice elems, .slice elems' => SameStructure.elems elems elems'
  | .mapIface entries, .mapString entries' => SameStructure.entries entries entries'
  | _, _ => False
/-- The two sequences have the same length and related elements, in order. -/
def SameStructure.elems : List Value → List Value → Prop
  | [], [] => True
  | v :: rest, v' :: rest' => SameStructure v v' ∧ SameStructure.elems rest rest'
  | _, _ => False
/-- The two mappings list the same keys, bound to related values. -/
def SameStructure.entries : List (Scalar × Value) → List (String × Value) → Prop
  | [], [] => True
  | (k, v) :: rest, (k', v') :: rest' =>
    k = .string k' ∧ SameStructure v v' ∧ SameStructure.entries rest rest'
  | _, _ => False
end

/-! ## Custom keywords: compile hooks -/

/-- The value a decoded schema node binds to a keyword, with its dynamic type:
a Go `string`, or a value of any other type. -/
inductive SchemaValue where
  | string (s : String)
  | other
  deriving DecidableEq

/-- The `jsonschema.ExtSchema` values this package builds: a bound literal
under one of the two named string types. -/
inductive ExtSchema where
  | resourceMinimumSchema (s : String)
  | resourceMaximumSchema (s : String)
  deriving DecidableEq

/-- The lookup `m[key]` with its `ok` flag on a schema node
`map[string]interface{}`. -/
def mapIndex (m : List (String × SchemaValue)) (key : String) : Option SchemaValue :=
  match m with
  | [] => none
  | (k, v) :: rest => if k = key then some v else mapIndex rest key

/-- `resourceMinimumCompiler.Compile` (validator.go, lines 136-144). The
result is `ok none` for `nil, nil`; `error` is the panic of the unchecked type
assertion `resourceMinimum.(string)`. -/
def resourceMinimumCompiler.Compile (m : List (String × SchemaValue)) :
    Except String (Option ExtSchema) :=
  match mapIndex m "resourceMinimum" with
  | some resourceMinimum =>
    match resourceMinimum with
    | .string n => .ok (some (.resourceMinimumSchema n))
    | .other => .error "interface conversion: interface is not string"
  | none => .ok none

/-- `resourceMaximumCompiler.Compile` (validator.go, lines 145-153). -/
def resourceMaximumCompiler.Compile (m : List (String × SchemaValue)) :
    Except String (Option ExtSchema) :=
  match mapIndex m "resourceMinimum" with
  | some resourceMinimum =>
    match resourceMinimum with
    | .string n => .ok (some (.resourceMaximumSchema n))
    | .other => .error "interface conversion: interface is not string"
  | none => .ok none

/-- The two `compiler.RegisterExtension` calls of `NewValidate`
(validator.go, lines 79-80): the compile hook registered under a keyword. -/
def registeredCompiler (keyword : String) :
    Option (List (String × SchemaValue) → Except String (Option ExtSchema)) :=
  if keyword = "resourceMinimum" then some resourceMinimumCompiler.Compile
  else if keyword = "resourceMaximum" then some resourceMaximumCompiler.Compile
  else none

/-- The validator the claim expects from the hook of keyword `K` on a node
binding `K` to the literal `lit`. -/
def expectedValidator (keyword lit : String) : ExtSchema :=
  if keyword = "resourceMinimum" then .resourceMinimumSchema lit
  else .resourceMaximumSchema lit

/-! ## Custom keywords: validators -/

/-- The packages the validators call and this repository does not contain:
`resource.ParseQuantity` and `Quantity.AsDec().String()` of
k8s.io/apimachinery, `strconv.ParseFloat(·, 64)` and the comparison `<` on
`float64`. `ParseQuantity` returns the zero `Quantity` next to every error, so
its Go result pair is recovered from `zeroQuantity`; the error of
`ParseFloat` is discarded by the callers and is left out. -/
structure QuantityLib where
  Quantity : Type
  Float64 : Type
  zeroQuantity : Quantity
  ParseQuantity : String → Except String Quantity
  AsDecString : Quantity → String
  ParseFloat : String → Float64
  lt : Float64 → Float64 → Bool

/-- The Go result pair `(Quantity, error)` of `resource.ParseQuantity`. -/
def QuantityLib.parsePair (L : QuantityLib) (str : String) : L.Quantity × Option String :=
  match L.ParseQuantity str with
  | .ok q => (q, none)
  | .error err => (L.zeroQuantity, some err)

/-- The instance `v interface{}` handed to a keyword validator, with its
dynamic type: the six types named in the `case` arm, or any other. -/
inductive Instance where
  | jsonNumber (s : String)
  | float64 (bits : Nat)
  | int (n : Int)
  | int32 (n : Int)
  | int64 (n : Int)
  | string (s : String)
  | other

/-- The unchecked type assertion `v.(string)`: it panics unless the dynamic
type of `v` is `string`. -/
def Instance.assertString : Instance → Except String String
  | .string s => .ok s
  | _ => .error "interface conversion: interface is not string"

/-- The error built by `ctx.Error(keyword, format, args...)`. -/
structure ValidationError (F : Type) where
  keyword : String
  format : String
  args : List F

/-- What a call of `Validate` that returns leaves behind: the lines written
by `fmt.Println` and the returned error (`none` for `nil`). -/
structure Verdict (F : Type) where
  stdout : List String
  err : Option (ValidationError F)

/-- The statement `if err != nil { fmt.Println(err.Error()) }`. -/
def printErr (err : Option String) : List String :=
  match err with
  | some msg => [msg]
  | none => []

/-- `resourceMinimumSchema.Validate` (validator.go, lines 158-182). The
`error` branch of the result is a panic. -/
def resourceMinimumSchema.Validate (L : QuantityLib) (s : String) (v : Instance) :
    Except String (Verdict L.Float64) :=
  match v with
  | .other => .ok ⟨[], none⟩
  | _ =>
    match v.assertString with
    | .error p => .error p
    | .ok vStr =>
      let resourceMinimumStr := s
      let rmDataValueParsedQ := (L.parsePair vStr).1
      let (rmSchemaValueParsedQ, err) := L.parsePair resourceMinimumStr
      let out := printErr err
      let rmDecStr := L.AsDecString rmDataValueParsedQ
      let rmRfDecStr := L.AsDecString rmSchemaValueParsedQ
      let resourceMinimumSchemaVal := L.ParseFloat rmDecStr
      let resourceMinimumDataVal := L.ParseFloat rmRfDecStr
      if L.lt resourceMinimumDataVal resourceMinimumSchemaVal then
        .ok ⟨out, some ⟨"resourceMinimum", "%v is lower then resourceMinimum %v",
          [resourceMinimumSchemaVal, resourceMinimumDataVal]⟩⟩
      else .ok ⟨out, none⟩

/-- `resourceMaximumSchema.Validate` (validator.go, lines 184-208); the Go
comparison `a > b` is `b < a`. -/
def resourceMaximumSchema.Validate (L : QuantityLib) (s : String) (v : Instance) :
    Except String (Verdict L.Float64) :=
  match v with
  | .other => .ok ⟨[], none⟩
  | _ =>
    match v.assertString with
    | .error p => .error p
    | .ok vStr =>
      let resourceMinimumStr := s
      let rmDataValueParsedQ := (L.parsePair vStr).1
      let (rmSchemaValueParsedQ, err) := L.parsePair resourceMinimumStr
      let out := printErr err
      let rmDecStr := L.AsDecString rmDataValueParsedQ
      let rmRfDecStr := L.AsDecString rmSchemaValueParsedQ
      let resourceMinimumSchemaVal := L.ParseFloat rmDecStr
      let resourceMinimumDataVal := L.ParseFloat rmRfDecStr
      if L.lt resourceMinimumSchemaVal resourceMinimumDataVal then
        .ok ⟨out, some ⟨"resourceMinimum", "%v is greater then resourceMinimum %v",
          [resourceMinimumSchemaVal, resourceMinimumDataVal]⟩⟩
      else .ok ⟨out, none⟩

/-- The call returned a validation error. -/
def returnsError {F : Type} (r : Except String (Verdict F)) : Prop :=
  ∃ out e, r = .ok ⟨out, some e⟩

/-- The call returned `nil`: the constraint counts as not violated. -/
def returnsNil {F : Type} (r : Except String (Verdict F)) : Prop :=
  ∃ out, r = .ok ⟨out, none⟩

/-- The call panicked. -/
def aborts {F : Type} (r : Except String (Verdict F)) : Prop :=
  ∃ p, r = .error p

/-! ## A quantity library -/

/-- A decimal magnitude `unscaled · 10 ^ (-scale)`. -/
structure Dec where
  unscaled : Int
  scale : Nat
  deriving DecidableEq

/-- Strict order of two decimals, after bringing both to a common scale. -/
def Dec.lt (a b : Dec) : Bool :=
  decide (a.unscaled * (10 : Int) ^ b.scale < b.unscaled * (10 : Int) ^ a.scale)

/-- Value of a non-empty run of decimal digits. -/
def digitsValue (cs : List Char) : Option Nat :=
  if cs.isEmpty then none
  else cs.foldl (fun acc c =>
    match acc with
    | some n => if c.isDigit then some (n * 10 + (c.toNat - 48)) else none
    | none => none) (some 0)

/-- A bare integer or decimal literal `digits` or `digits.digits`, with an
optional sign, as an exact decimal. -/
def parseDecimal (cs : List Char) : Option Dec :=
  let (negative, body) :=
    match cs with
    | '-' :: rest => (true, rest)
    | '+' :: rest => (false, rest)
    | _ => (false, cs)
  let whole := body.takeWhile (fun c => c != '.')
  let sign : Int := if negative then -1 else 1
  match body.dropWhile (fun c => c != '.') with
  | [] =>
    match digitsValue whole with
    | some n => some ⟨sign * n, 0⟩
    | none => none
  | _ :: frac =>
    match digitsValue whole, digitsValue frac with
    | some n, some f => some ⟨sign * (n * 10 ^ frac.length + f), frac.length⟩
    | _, _ => none

/-- The multiplier of a suffix as `factor · 10 ^ (-shift)`: none, the
decimal-scale suffix `m`, the SI suffixes and the binary suffixes. -/
def suffixFactor (suffix : List Char) : Option (Nat × Nat) :=
  match suffix with
  | [] => some (1, 0)
  | ['m'] => some (1, 3)
  | ['k'] => some (10 ^ 3, 0)
  | ['M'] => some (10 ^ 6, 0)
  | ['G'] => some (10 ^ 9, 0)
  | ['T'] => some (10 ^ 12, 0)
  | ['K', 'i'] => some (2 ^ 10, 0)
  | ['M', 'i'] => some (2 ^ 20, 0)
  | ['G', 'i'] => some (2 ^ 30, 0)
  | ['T', 'i'] => some (2 ^ 40, 0)
  | _ => none

/-- Modelled from the spec: the parser `parse(text)` of §4.1, which the code
takes from an external package. It accepts a bare integer or decimal literal,
optionally followed by `m`, an SI suffix (k/M/G/T) or a binary suffix
(Ki/Mi/Gi/Ti), and rejects anything else; the result is the canonical decimal
magnitude. -/
def parseQuantity (str : String) : Except String Dec :=
  let cs := str.toList
  let isNumeric := fun (c : Char) => c.isDigit || c == '.' || c == '-' || c == '+'
  match parseDecimal (cs.takeWhile isNumeric), suffixFactor (cs.dropWhile isNumeric) with
  | some d, some (factor, shift) => .ok ⟨d.unscaled * factor, d.scale + shift⟩
  | _, _ => .error "ParseError"

/-- Decimal digits of a natural number, most significant first. -/
def natDigits (fuel n : Nat) : List Char :=
  match fuel with
  | 0 => []
  | fuel + 1 =>
    let d := Char.ofNat (48 + n % 10)
    if n < 10 then [d] else natDigits fuel (n / 10) ++ [d]

/-- The decimal string of a magnitude: sign, integer part and, for a positive
scale, a point and exactly `scale` fraction digits. -/
def Dec.toString (d : Dec) : String :=
  let n := d.unscaled.natAbs
  let sign := if d.unscaled < 0 then ['-'] else []
  let whole := natDigits (n + 1) (n / 10 ^ d.scale)
  let frac := natDigits (n + 1) (n % 10 ^ d.scale)
  if d.scale = 0 then String.mk (sign ++ whole)
  else String.mk (sign ++ whole ++ ['.'] ++ List.replicate (d.scale - frac.length) '0' ++ frac)

/-- Modelled from the spec: the external collaborators of the validators, with
the parser of §4.1 and with the `float64` read back from the decimal string
taken exactly, as it is on decimals of up to 15 significant digits. A string
that is no decimal literal reads back as zero. -/
def specQuantityLib : QuantityLib where
  Quantity := Dec
  Float64 := Dec
  zeroQuantity := ⟨0, 0⟩
  ParseQuantity := parseQuantity
  AsDecString := Dec.toString
  ParseFloat := fun s => (parseDecimal s.toList).getD ⟨0, 0⟩
  lt := Dec.lt

/-! ## Example documents -/

/-- A document with an integer key inside a sequence inside a mapping. -/
def nestedIntKeyDoc : Value :=
  .mapIface [(.string "spec", .slice [.scalar (.int 1), .mapIface [(.int 3, .scalar .null)]])]

/-- A document whose keys are all strings. -/
def stringKeyDoc : Value :=
  .mapIface [(.string "spec", .slice [.scalar (.int 1), .mapIface [(.string "cpu", .scalar .null)]]),
    (.string "kind", .scalar (.string "Pod"))]

/-! ## Theorems: error reducer -/

/-- Unfolding of `getErrors` on a non-empty slice. -/
theorem getErrors_cons (err : Detailed) (rest : List Detailed) :
    getErrors (err :: rest) =
      if 0 < err.Errors.length then getErrors err.Errors else err :: rest := by
  cases err with
  | mk v k a i m errs => simp [getErrors, getErrors.loopBody, Detailed.Errors]

/-- The children of a record are smaller than any slice the record heads. -/
theorem sizeOf_Errors_lt (err : Detailed) (rest : List Detailed) :
    sizeOf err.Errors < sizeOf (err :: rest) := by
  cases err with
  | mk v k a i m errs =>
    simp only [Detailed.Errors, List.cons.sizeOf_spec, Detailed.mk.sizeOf_spec]
    omega

/-- The first record of a reduced slice has no children (by size of the
input). -/
theorem getErrors_head_childless_aux (n : Nat) :
    ∀ errs : List Detailed, sizeOf errs ≤ n →
      ∀ r, (getErrors errs).head? = some r → r.Errors = [] := by
  induction n with
  | zero =>
    intro errs h r hr
    cases errs with
    | nil => simp [getErrors] at hr
    | cons e rest => simp at h
  | succ n ih =>
    intro errs h r hr
    cases errs with
    | nil => simp [getErrors] at hr
    | cons e rest =>
      rw [getErrors_cons] at hr
      by_cases hc : 0 < e.Errors.length
      · rw [if_pos hc] at hr
        have hlt := sizeOf_Errors_lt e rest
        exact ih e.Errors (by omega) r hr
      · rw [if_neg hc] at hr
        simp only [List.head?_cons, Option.some.injEq] at hr
        subst hr
        exact List.length_eq_zero.mp (by omega)

/-- C4: `getErrors` returns an empty input unchanged; on a non-empty input
whose first element has children it returns `getErrors` of those children,
whatever the other top-level elements are; on a non-empty input whose first
element has no children it returns the input unchanged. When the first element
has exactly two childless children, the result is those two children. -/
theorem getErrors_first_branch_descent (v : Bool) (k a i m : String)
    (c : Detailed) (cs rest : List Detailed)
    (v₁ : Bool) (k₁ a₁ i₁ m₁ : String) (v₂ : Bool) (k₂ a₂ i₂ m₂ : String) :
    getErrors [] = [] ∧
    getErrors (.mk v k a i m (c :: cs) :: rest) = getErrors (c :: cs) ∧
    getErrors (.mk v k a i m [] :: rest) = .mk v k a i m [] :: rest ∧
    getErrors (.mk v k a i m [.mk v₁ k₁ a₁ i₁ m₁ [], .mk v₂ k₂ a₂ i₂ m₂ []] :: rest) =
      [.mk v₁ k₁ a₁ i₁ m₁ [], .mk v₂ k₂ a₂ i₂ m₂ []] := by
  refine ⟨rfl, ?_, ?_, ?_⟩
  · rw [getErrors_cons]; simp [Detailed.Errors]
  · rw [getErrors_cons]; simp [Detailed.Errors]
  · rw [getErrors_cons]; simp [Detailed.Errors, getErrors_cons]

/-- C7, as stated, fails: the reduced slice `[a, b]` with `a` childless keeps
`b` together with the children of `b`. -/
theorem getErrors_keeps_sibling_with_children :
    ¬ ∀ errs : List Detailed, ∀ r ∈ getErrors errs, r.Errors = [] := by
  intro h
  have h2 := h [leafError "type", .mk false "allOf" "allOf" "" "allOf" [leafError "required"]]
    (.mk false "allOf" "allOf" "" "allOf" [leafError "required"])
    (by simp [getErrors_cons, leafError, Detailed.Errors])
  simp [Detailed.Errors] at h2

/-- C7, amended: the first record of the slice returned by `getErrors`, when
there is one, has no children. -/
theorem getErrors_head_childless (errs : List Detailed) (r : Detailed)
    (h : (getErrors errs).head? = some r) : r.Errors = [] :=
  getErrors_head_childless_aux (sizeOf errs) errs (Nat.le_refl _) r h

/-- Witness of C7 amended: a wrapper with two leaves and a sibling. -/
theorem getErrors_head_childless_witness :
    (getErrors [.mk false "allOf" "allOf" "" "allOf" [leafError "type", leafError "required"],
        leafError "enum"]).head? = some (leafError "type") ∧
      (leafError "type").Errors = [] :=
  ⟨rfl, getErrors_head_childless
    [.mk false "allOf" "allOf" "" "allOf" [leafError "type", leafError "required"],
      leafError "enum"] (leafError "type") rfl⟩

/-- C10: on a slice none of whose elements has children, `getErrors` returns
the slice unchanged, and so does a second application. -/
theorem getErrors_flat_idempotent (s : List Detailed) (h : ∀ e ∈ s, e.Errors = []) :
    getErrors s = s ∧ getErrors (getErrors s) = getErrors s := by
  have hs : getErrors s = s := by
    cases s with
    | nil => rfl
    | cons e rest =>
      rw [getErrors_cons, h e (List.mem_cons_self e rest)]
      simp
  exact ⟨hs, by rw [hs, hs]⟩

/-- Witness of C10: a flat slice of two records. -/
theorem getErrors_flat_idempotent_witness :
    (∀ e ∈ [leafError "type", leafError "required"], e.Errors = []) ∧
      getErrors [leafError "type", leafError "required"] =
        [leafError "type", leafError "required"] ∧
      getErrors (getErrors [leafError "type", leafError "required"]) =
        getErrors [leafError "type", leafError "required"] :=
  ⟨by simp [leafError, Detailed.Errors],
    getErrors_flat_idempotent [leafError "type", leafError "required"]
      (by simp [leafError, Detailed.Errors])⟩

/-! ## Theorems: document normalizer -/

mutual
/-- On a decoded tree `toStringKeys` fails exactly when a non-string key
occurs somewhere. -/
theorem toStringKeys_error_iff_aux : ∀ d : Value, d.Decoded →
    ((∃ err, toStringKeys d = .error err) ↔ d.HasNonStringKey)
  | .scalar s, _ => by simp [toStringKeys, Value.HasNonStringKey]
  | .mapString entries, h => by simp [Value.Decoded] at h
  | .mapIface entries, h => by
    have ih := rangeMap_error_iff_aux entries [] (by simpa [Value.Decoded] using h)
    rw [Value.HasNonStringKey, ← ih, toStringKeys]
    cases toStringKeys.rangeMap entries [] <;> simp
  | .slice elems, h => by
    have ih := rangeSlice_error_iff_aux elems (by simpa [Value.Decoded] using h)
    rw [Value.HasNonStringKey, ← ih, toStringKeys]
    cases toStringKeys.rangeSlice elems <;> simp
/-- The map loop fails exactly when a key of the map is not a string or a
value of it fails. -/
theorem rangeMap_error_iff_aux : ∀ (entries : List (Scalar × Value)) (m : List (String × Value)),
    Value.DecodedEntries entries →
    ((∃ err, toStringKeys.rangeMap entries m = .error err) ↔
      Value.HasNonStringKeyEntries entries)
  | [], m, _ => by simp [toStringKeys.rangeMap, Value.HasNonStringKeyEntries]
  | (k, v) :: rest, m, h => by
    have hv : v.Decoded := h.1
    have hrest : Value.DecodedEntries rest := h.2
    have ihv := toStringKeys_error_iff_aux v hv
    cases k with
    | string key =>
      rw [Value.HasNonStringKeyEntries, ← ihv, toStringKeys.rangeMap]
      cases hres : toStringKeys v with
      | error err => simp [Scalar.isString]
      | ok w =>
        have ihr := rangeMap_error_iff_aux rest (mapAssign m key w) hrest
        simp [Scalar.isString, ihr]
    | int n => simp [toStringKeys.rangeMap, Value.HasNonStringKeyEntries, Scalar.isString]
    | float64 b => simp [toStringKeys.rangeMap, Value.HasNonStringKeyEntries, Scalar.isString]
    | bool b => simp [toStringKeys.rangeMap, Value.HasNonStringKeyEntries, Scalar.isString]
    | null => simp [toStringKeys.rangeMap, Value.HasNonStringKeyEntries, Scalar.isString]
/-- The slice loop fails exactly when an element fails. -/
theorem rangeSlice_error_iff_aux : ∀ elems : List Value, Value.DecodedElems elems →
    ((∃ err, toStringKeys.rangeSlice elems = .error err) ↔ Value.HasNonStringKeyElems elems)
  | [], _ => by simp [toStringKeys.rangeSlice, Value.HasNonStringKeyElems]
  | v :: rest, h => by
    have ihv := toStringKeys_error_iff_aux v h.1
    have ihr := rangeSlice_error_iff_aux rest h.2
    rw [Value.HasNonStringKeyElems, ← ihv, ← ihr, toStringKeys.rangeSlice]
    cases toStringKeys v with
    | error err => simp
    | ok w => cases toStringKeys.rangeSlice rest <;> simp
end

/-- Assigning a key the map does not hold yet adds the binding. -/
theorem mapAssign_of_not_mem (m : List (String × Value)) (k : String) (v : Value)
    (h : k ∉ m.map Prod.fst) : mapAssign m k v = m ++ [(k, v)] := by
  induction m with
  | nil => rfl
  | cons p rest ih =>
    obtain ⟨k', v'⟩ := p
    simp only [List.map_cons, List.mem_cons, not_or] at h
    have hne : ¬ k' = k := fun e => h.1 e.symm
    simp [mapAssign, hne, ih h.2]

mutual
/-- On a decoded tree with string keys only and no repeated key,
`toStringKeys` succeeds with a result of the same structure. -/
theorem toStringKeys_sameStructure_aux : ∀ d : Value, d.Decoded → ¬ d.HasNonStringKey →
    d.KeysDistinct → ∃ r, toStringKeys d = .ok r ∧ SameStructure d r
  | .scalar s, _, _, _ => ⟨.scalar s, by simp [toStringKeys], by simp [SameStructure]⟩
  | .mapString entries, h, _, _ => by simp [Value.Decoded] at h
  | .mapIface entries, h, hk, hd => by
    obtain ⟨out, hout, hsame⟩ := rangeMap_sameStructure_aux entries []
      (by simpa [Value.Decoded] using h) (by simpa [Value.HasNonStringKey] using hk)
      hd.2 hd.1 (by simp)
    exact ⟨.mapString out, by simp [toStringKeys, hout], by simpa [SameStructure] using hsame⟩
  | .slice elems, h, hk, hd => by
    obtain ⟨out, hout, hsame⟩ := rangeSlice_sameStructure_aux elems
      (by simpa [Value.Decoded] using h) (by simpa [Value.HasNonStringKey] using hk)
      (by simpa [Value.KeysDistinct] using hd)
    exact ⟨.slice out, by simp [toStringKeys, hout], by simpa [SameStructure] using hsame⟩
/-- The map loop extends the map built so far by one binding per entry, in
order. -/
theorem rangeMap_sameStructure_aux : ∀ (entries : List (Scalar × Value))
    (m : List (String × Value)), Value.DecodedEntries entries →
    ¬ Value.HasNonStringKeyEntries entries → Value.KeysDistinctEntries entries →
    (entries.map Prod.fst).Nodup →
    (∀ k, Scalar.string k ∈ entries.map Prod.fst → k ∉ m.map Prod.fst) →
    ∃ out, toStringKeys.rangeMap entries m = .ok (m ++ out) ∧ SameStructure.entries entries out
  | [], m, _, _, _, _, _ => ⟨[], by simp [toStringKeys.rangeMap], by simp [SameStructure.entries]⟩
  | (k, v) :: rest, m, h, hk, hd, hn, hm => by
    simp only [Value.HasNonStringKeyEntries, not_or] at hk
    obtain ⟨hks, hkv, hkr⟩ := hk
    cases k with
    | string key =>
      obtain ⟨w, hw, hsame⟩ := toStringKeys_sameStructure_aux v h.1 hkv hd.1
      simp only [List.map_cons, List.nodup_cons] at hn
      have hfresh : key ∉ m.map Prod.fst := hm key (by simp)
      obtain ⟨out, hout, hsameRest⟩ := rangeMap_sameStructure_aux rest (m ++ [(key, w)])
        h.2 hkr hd.2 hn.2 (by
          intro k' hk'
          have h1 : k' ∉ m.map Prod.fst := hm k' (by simp [hk'])
          have h2 : k' ≠ key := by
            intro e
            subst e
            exact hn.1 hk'
          simp [h1, h2])
      refine ⟨(key, w) :: out, ?_, ?_⟩
      · simp [toStringKeys.rangeMap, hw, mapAssign_of_not_mem m key w hfresh, hout]
      · simp [SameStructure.entries, hsame, hsameRest]
    | int n => simp [Scalar.isString] at hks
    | float64 b => simp [Scalar.isString] at hks
    | bool b => simp [Scalar.isString] at hks
    | null => simp [Scalar.isString] at hks
/-- The slice loop normalizes the elements one by one, in order. -/
theorem rangeSlice_sameStructure_aux : ∀ elems : List Value, Value.DecodedElems elems →
    ¬ Value.HasNonStringKeyElems elems → Value.KeysDistinctElems elems →
    ∃ out, toStringKeys.rangeSlice elems = .ok out ∧ SameStructure.elems elems out
  | [], _, _, _ => ⟨[], by simp [toStringKeys.rangeSlice], by simp [SameStructure.elems]⟩
  | v :: rest, h, hk, hd => by
    simp only [Value.HasNonStringKeyElems, not_or] at hk
    obtain ⟨w, hw, hsame⟩ := toStringKeys_sameStructure_aux v h.1 hk.1 hd.1
    obtain ⟨out, hout, hsameRest⟩ := rangeSlice_sameStructure_aux rest h.2 hk.2 hd.2
    exact ⟨w :: out, by simp [toStringKeys.rangeSlice, hw, hout],
      by simp [SameStructure.elems, hsame, hsameRest]⟩
end

/-- C5: on every decoded document tree, `toStringKeys` returns an error, and
no document value, if and only if some mapping anywhere in the tree (inside
sequences and other mappings too) has a key that is not a string. -/
theorem toStringKeys_error_iff_nonStringKey (d : Value) (h : d.Decoded) :
    ((∃ err, toStringKeys d = .error err) ∧ ∀ r, toStringKeys d ≠ .ok r) ↔
      d.HasNonStringKey := by
  rw [← toStringKeys_error_iff_aux d h]
  constructor
  · exact fun hh => hh.1
  · rintro ⟨err, herr⟩
    exact ⟨⟨err, herr⟩, by simp [herr]⟩

/-- Witness of C5: the integer key nested in a sequence makes the call fail. -/
theorem toStringKeys_error_iff_nonStringKey_witness :
    nestedIntKeyDoc.Decoded ∧
      (((∃ err, toStringKeys nestedIntKeyDoc = .error err) ∧
          ∀ r, toStringKeys nestedIntKeyDoc ≠ .ok r) ↔ nestedIntKeyDoc.HasNonStringKey) ∧
      toStringKeys nestedIntKeyDoc = .error "found non-string key" :=
  ⟨by simp [nestedIntKeyDoc, Value.Decoded, Value.DecodedEntries, Value.DecodedElems],
    toStringKeys_error_iff_nonStringKey nestedIntKeyDoc
      (by simp [nestedIntKeyDoc, Value.Decoded, Value.DecodedEntries, Value.DecodedElems]),
    rfl⟩

/-- C6: on every decoded document tree in which every mapping key at every
depth is a string (each map holding a key once, as Go maps do), `toStringKeys`
succeeds and its result has the same structure: mappings keep their keys, now
typed as strings, bound to the normalized values, sequences keep their length
and order, scalars are unchanged. -/
theorem toStringKeys_sameStructure (d : Value) (h : d.Decoded) (hk : ¬ d.HasNonStringKey)
    (hd : d.KeysDistinct) : ∃ r, toStringKeys d = .ok r ∧ SameStructure d r :=
  toStringKeys_sameStructure_aux d h hk hd

/-- Witness of C6: a mapping holding a sequence and a scalar. -/
theorem toStringKeys_sameStructure_witness :
    stringKeyDoc.Decoded ∧ ¬ stringKeyDoc.HasNonStringKey ∧ stringKeyDoc.KeysDistinct ∧
      ∃ r, toStringKeys stringKeyDoc = .ok r ∧ SameStructure stringKeyDoc r :=
  ⟨by simp [stringKeyDoc, Value.Decoded, Value.DecodedEntries, Value.DecodedElems],
    by simp [stringKeyDoc, Value.HasNonStringKey, Value.HasNonStringKeyEntries,
      Value.HasNonStringKeyElems, Scalar.isString],
    by simp [stringKeyDoc, Value.KeysDistinct, Value.KeysDistinctEntries,
      Value.KeysDistinctElems],
    toStringKeys_sameStructure stringKeyDoc
      (by simp [stringKeyDoc, Value.Decoded, Value.DecodedEntries, Value.DecodedElems])
      (by simp [stringKeyDoc, Value.HasNonStringKey, Value.HasNonStringKeyEntries,
        Value.HasNonStringKeyElems, Scalar.isString])
      (by simp [stringKeyDoc, Value.KeysDistinct, Value.KeysDistinctEntries,
        Value.KeysDistinctElems])⟩

/-! ## Theorems: compile hooks -/

/-- The minimum hook returns a validator exactly on the nodes that declare
`resourceMinimum`, bound to the declared literal. -/
theorem resourceMinimumCompiler_compile_spec (m : List (String × SchemaValue)) :
    (∀ lit, mapIndex m "resourceMinimum" = some (.string lit) →
      resourceMinimumCompiler.Compile m = .ok (some (.resourceMinimumSchema lit))) ∧
    (mapIndex m "resourceMinimum" = none → resourceMinimumCompiler.Compile m = .ok none) := by
  constructor
  · intro lit h
    simp [resourceMinimumCompiler.Compile, h]
  · intro h
    simp [resourceMinimumCompiler.Compile, h]

/-- The maximum hook never reads `resourceMaximum`: it answers as the minimum
hook does, with the validator retagged. -/
theorem resourceMaximumCompiler_compile_eq (m : List (String × SchemaValue)) :
    resourceMaximumCompiler.Compile m =
      match resourceMinimumCompiler.Compile m with
      | .ok (some (.resourceMinimumSchema n)) => .ok (some (.resourceMaximumSchema n))
      | r => r := by
  unfold resourceMaximumCompiler.Compile resourceMinimumCompiler.Compile
  cases mapIndex m "resourceMinimum" with
  | none => rfl
  | some x => cases x <;> rfl

/-- C3 (code at the failing inputs): the hook registered for `resourceMaximum`
returns no validator on a node declaring only `resourceMaximum`, and returns a
maximum validator bound to the minimum literal on a node declaring only
`resourceMinimum`; the hook registered for `resourceMinimum` behaves as
claimed on both nodes. -/
theorem registeredCompiler_resourceMaximum_reads_resourceMinimum :
    (registeredCompiler "resourceMaximum").map
        (fun compile => compile [("resourceMaximum", .string "5")]) = some (.ok none) ∧
    (registeredCompiler "resourceMaximum").map
        (fun compile => compile [("resourceMinimum", .string "2")]) =
      some (.ok (some (.resourceMaximumSchema "2"))) ∧
    (registeredCompiler "resourceMinimum").map
        (fun compile => compile [("resourceMinimum", .string "2")]) =
      some (.ok (some (expectedValidator "resourceMinimum" "2"))) ∧
    (registeredCompiler "resourceMinimum").map
        (fun compile => compile [("resourceMaximum", .string "5")]) = some (.ok none) := by
  refine ⟨rfl, rfl, rfl, rfl⟩

/-! ## Theorems: validators -/

/-- The minimum validator on a string instance: the bound is read back into
`resourceMinimumDataVal`, the instance into `resourceMinimumSchemaVal`. -/
theorem resourceMinimumSchema_validate_string (L : QuantityLib) (b v : String) :
    resourceMinimumSchema.Validate L b (.string v) =
      if L.lt (L.ParseFloat (L.AsDecString (L.parsePair b).1))
          (L.ParseFloat (L.AsDecString (L.parsePair v).1)) then
        .ok ⟨printErr (L.parsePair b).2, some ⟨"resourceMinimum",
          "%v is lower then resourceMinimum %v",
          [L.ParseFloat (L.AsDecString (L.parsePair v).1),
            L.ParseFloat (L.AsDecString (L.parsePair b).1)]⟩⟩
      else .ok ⟨printErr (L.parsePair b).2, none⟩ := by
  simp [resourceMinimumSchema.Validate, Instance.assertString]

/-- The maximum validator on a string instance. -/
theorem resourceMaximumSchema_validate_string (L : QuantityLib) (b v : String) :
    resourceMaximumSchema.Validate L b (.string v) =
      if L.lt (L.ParseFloat (L.AsDecString (L.parsePair v).1))
          (L.ParseFloat (L.AsDecString (L.parsePair b).1)) then
        .ok ⟨printErr (L.parsePair b).2, some ⟨"resourceMinimum",
          "%v is greater then resourceMinimum %v",
          [L.ParseFloat (L.AsDecString (L.parsePair v).1),
            L.ParseFloat (L.AsDecString (L.parsePair b).1)]⟩⟩
      else .ok ⟨printErr (L.parsePair b).2, none⟩ := by
  simp [resourceMaximumSchema.Validate, Instance.assertString]

/-- With any quantity library, the minimum validator reports an error exactly
when the bound reads back strictly below the instance. -/
theorem resourceMinimumSchema_validate_error_iff (L : QuantityLib) (b v : String)
    (qb qv : L.Quantity) (hb : L.ParseQuantity b = .ok qb) (hv : L.ParseQuantity v = .ok qv) :
    returnsError (resourceMinimumSchema.Validate L b (.string v)) ↔
      L.lt (L.ParseFloat (L.AsDecString qb)) (L.ParseFloat (L.AsDecString qv)) = true := by
  rw [resourceMinimumSchema_validate_string]
  simp only [QuantityLib.parsePair, hb, hv, returnsError]
  by_cases h : L.lt (L.ParseFloat (L.AsDecString qb)) (L.ParseFloat (L.AsDecString qv)) = true
  · simp [h]
  · simp [h]

/-- With any quantity library, the maximum validator reports an error exactly
when the instance reads back strictly below the bound. -/
theorem resourceMaximumSchema_validate_error_iff (L : QuantityLib) (b v : String)
    (qb qv : L.Quantity) (hb : L.ParseQuantity b = .ok qb) (hv : L.ParseQuantity v = .ok qv) :
    returnsError (resourceMaximumSchema.Validate L b (.string v)) ↔
      L.lt (L.ParseFloat (L.AsDecString qv)) (L.ParseFloat (L.AsDecString qb)) = true := by
  rw [resourceMaximumSchema_validate_string]
  simp only [QuantityLib.parsePair, hb, hv, returnsError]
  by_cases h : L.lt (L.ParseFloat (L.AsDecString qv)) (L.ParseFloat (L.AsDecString qb)) = true
  · simp [h]
  · simp [h]

/-- C1 (code at the failing inputs): with bound "2" the minimum validator
returns no error for the instance "1" and returns an error for the instance
"3", the reverse of the claim. -/
theorem resourceMinimumSchema_validate_reversed :
    resourceMinimumSchema.Validate specQuantityLib "2" (.string "1") = .ok ⟨[], none⟩ ∧
    resourceMinimumSchema.Validate specQuantityLib "2" (.string "3") =
      .ok ⟨[], some ⟨"resourceMinimum", "%v is lower then resourceMinimum %v",
        [(⟨3, 0⟩ : Dec), (⟨2, 0⟩ : Dec)]⟩⟩ :=
  ⟨rfl, rfl⟩

/-- C2 (code at the failing inputs): with bound "5" the maximum validator
returns no error for the instances "5" and "6" and returns an error for the
instance "1". -/
theorem resourceMaximumSchema_validate_reversed :
    resourceMaximumSchema.Validate specQuantityLib "5" (.string "5") = .ok ⟨[], none⟩ ∧
    resourceMaximumSchema.Validate specQuantityLib "5" (.string "6") = .ok ⟨[], none⟩ ∧
    resourceMaximumSchema.Validate specQuantityLib "5" (.string "1") =
      .ok ⟨[], some ⟨"resourceMinimum", "%v is greater then resourceMinimum %v",
        [(⟨1, 0⟩ : Dec), (⟨5, 0⟩ : Dec)]⟩⟩ :=
  ⟨rfl, rfl, rfl⟩

/-- C8 (code at the failing inputs): with any quantity library and any bound,
both validators panic on every instance of type `json.Number`, `float64`,
`int`, `int32` or `int64`. -/
theorem validate_native_number_aborts (L : QuantityLib) (b s : String) (bits : Nat)
    (n : Int) :
    aborts (resourceMinimumSchema.Validate L b (.jsonNumber s)) ∧
    aborts (resourceMinimumSchema.Validate L b (.float64 bits)) ∧
    aborts (resourceMinimumSchema.Validate L b (.int n)) ∧
    aborts (resourceMinimumSchema.Validate L b (.int32 n)) ∧
    aborts (resourceMinimumSchema.Validate L b (.int64 n)) ∧
    aborts (resourceMaximumSchema.Validate L b (.jsonNumber s)) ∧
    aborts (resourceMaximumSchema.Validate L b (.float64 bits)) ∧
    aborts (resourceMaximumSchema.Validate L b (.int n)) ∧
    aborts (resourceMaximumSchema.Validate L b (.int32 n)) ∧
    aborts (resourceMaximumSchema.Validate L b (.int64 n)) := by
  refine ⟨⟨_, rfl⟩, ⟨_, rfl⟩, ⟨_, rfl⟩, ⟨_, rfl⟩, ⟨_, rfl⟩, ⟨_, rfl⟩, ⟨_, rfl⟩, ⟨_, rfl⟩,
    ⟨_, rfl⟩, ⟨_, rfl⟩⟩

/-- C9, as stated, fails: the instance "abc" does not parse, and the maximum
validator with bound "5" returns an error for it; the bound "abc" does not
parse, and the minimum validator returns an error for the instance "1". -/
theorem validate_unparsable_returns_error :
    ¬ ∀ b v : String,
      ((∃ e, specQuantityLib.ParseQuantity v = .error e) ∨
        (∃ e, specQuantityLib.ParseQuantity b = .error e)) →
      returnsNil (resourceMinimumSchema.Validate specQuantityLib b (.string v)) ∧
        returnsNil (resourceMaximumSchema.Validate specQuantityLib b (.string v)) := by
  intro h
  obtain ⟨_, out, hout⟩ := h "5" "abc" (Or.inl ⟨"ParseError", rfl⟩)
  have heval : resourceMaximumSchema.Validate specQuantityLib "5" (.string "abc") =
      .ok ⟨[], some ⟨"resourceMinimum", "%v is greater then resourceMinimum %v",
        [(⟨0, 0⟩ : Dec), (⟨5, 0⟩ : Dec)]⟩⟩ := rfl
  rw [heval] at hout
  simp at hout

/-- C9, amended: with any quantity library both validators return on every
string instance; an instance that does not parse gets the result of an
instance `z` that parses to a quantity printed like the zero quantity, and a
bound that does not parse yields the error, if any, that such a bound `z`
yields. -/
theorem validate_unparsable_compares_as_zero (L : QuantityLib) (b v z : String)
    (qz : L.Quantity) (hz : L.ParseQuantity z = .ok qz)
    (hzero : L.AsDecString qz = L.AsDecString L.zeroQuantity) :
    ¬ aborts (resourceMinimumSchema.Validate L b (.string v)) ∧
    ¬ aborts (resourceMaximumSchema.Validate L b (.string v)) ∧
    ((∃ e, L.ParseQuantity v = .error e) →
      resourceMinimumSchema.Validate L b (.string v) =
          resourceMinimumSchema.Validate L b (.string z) ∧
        resourceMaximumSchema.Validate L b (.string v) =
          resourceMaximumSchema.Validate L b (.string z)) ∧
    ((∃ e, L.ParseQuantity b = .error e) →
      (resourceMinimumSchema.Validate L b (.string v)).map Verdict.err =
          (resourceMinimumSchema.Validate L z (.string v)).map Verdict.err ∧
        (resourceMaximumSchema.Validate L b (.string v)).map Verdict.err =
          (resourceMaximumSchema.Validate L z (.string v)).map Verdict.err) := by
  have hpz : (L.parsePair z).1 = qz := by simp [QuantityLib.parsePair, hz]
  refine ⟨?_, ?_, ?_, ?_⟩
  · rw [resourceMinimumSchema_validate_string]
    rintro ⟨p, hp⟩
    split at hp <;> simp at hp
  · rw [resourceMaximumSchema_validate_string]
    rintro ⟨p, hp⟩
    split at hp <;> simp at hp
  · rintro ⟨e, he⟩
    have hpv : (L.parsePair v).1 = L.zeroQuantity := by simp [QuantityLib.parsePair, he]
    simp only [resourceMinimumSchema_validate_string, resourceMaximumSchema_validate_string,
      hpv, hpz, hzero, and_self]
  · rintro ⟨e, he⟩
    have hpb : (L.parsePair b).1 = L.zeroQuantity := by simp [QuantityLib.parsePair, he]
    simp only [resourceMinimumSchema_validate_string, resourceMaximumSchema_validate_string,
      hpb, hpz, hzero]
    constructor
    · split <;> rfl
    · split <;> rfl

/-- Witness of C9 amended: the zero literal "0", the unparsable instance "abc"
and the bound "5". -/
theorem validate_unparsable_compares_as_zero_witness :
    specQuantityLib.ParseQuantity "0" = .ok (⟨0, 0⟩ : Dec) ∧
    specQuantityLib.AsDecString (⟨0, 0⟩ : Dec) =
      specQuantityLib.AsDecString specQuantityLib.zeroQuantity ∧
    (∃ e, specQuantityLib.ParseQuantity "abc" = .error e) ∧
    resourceMaximumSchema.Validate specQuantityLib "5" (.string "abc") =
      resourceMaximumSchema.Validate specQuantityLib "5" (.string "0") :=
  ⟨rfl, rfl, ⟨"ParseError", rfl⟩,
    ((validate_unparsable_compares_as_zero specQuantityLib "5" "abc" "0" (⟨0, 0⟩ : Dec)
      rfl rfl).2.2.1 ⟨"ParseError", rfl⟩).2⟩

end JsonSchemaValidator
